import Mathlib

/-!
Shallow embedding of the mod2mus converter (src/mod2mus.cpp): the
period-to-note resolver, the effect translator, and the pattern
sequencer / compressor, together with the sample descriptor size
computation.  All machine integers are modelled as `Nat` (bytes are
kept below 256 by masking at the read site, exactly as the byte-wide
C++ types do); the one signed comparison in the period scan is
modelled on `Int`.
-/

namespace Mod2Mus

/-- The fixed 36-entry descending ProTracker period table
(`ProTrackerPeriodTable` in the source). -/
def ProTrackerPeriodTable : List Nat :=
  [856, 808, 762, 720, 678, 640, 604, 570, 538, 508, 480, 453,
   428, 404, 381, 360, 339, 320, 302, 285, 269, 254, 240, 226,
   214, 202, 190, 180, 170, 160, 151, 143, 135, 127, 120, 113]

/-- The scan loop of the period resolver (the `for` loop at
src/mod2mus.cpp:312-329): walk the table in ascending index order,
carrying the previous entry `p1`; at the first index `i` with
`period >= table[i]`, return `i` when the period is not an exact match,
`i` is not 0 and the period is strictly closer to the previous entry,
otherwise `i + 1`; return 0 when no entry matches. -/
def scanPeriod (period : Nat) : Nat → Nat → List Nat → Nat
  | _, _, [] => 0
  | p1, i, p2 :: rest =>
    if period ≥ p2 then
      if period ≠ p2 ∧ i ≠ 0 ∧ ((p1 : Int) - (period : Int) < (period : Int) - (p2 : Int)) then
        i
      else
        i + 1
    else
      scanPeriod period p2 (i + 1) rest

/-- The period-to-note resolver (src/mod2mus.cpp:309-330): note 0 for
period 0 or 0xFFF, otherwise the result of the table scan. -/
def noteFromPeriod (period : Nat) : Nat :=
  if period > 0 ∧ period ≠ 0xFFF then scanPeriod period 0 0 ProTrackerPeriodTable else 0

/-- Result of translating one effect column: destination command and
parameter, plus the two control-flow flags (position jump, pattern
break) consumed by the sequencer. -/
structure EffectResult where
  command : Nat
  param : Nat
  jump : Bool
  brk : Bool
deriving DecidableEq

/-- The effect-translation switch (src/mod2mus.cpp:332-377) as a pure
function of the 4-bit source command nibble and the 8-bit parameter.
The default command is 0x14 ("no effect"); case 0x0B (position jump)
and case 0x0D (pattern break) zero the parameter and raise their
control flag instead of producing a translated command. -/
def translateEffect (cmd param : Nat) : EffectResult :=
  match cmd with
  | 0x00 => if param ≠ 0 then ⟨0x0B, param, false, false⟩ else ⟨0x14, param, false, false⟩
  | 0x01 => ⟨0x0C, param, false, false⟩
  | 0x02 => ⟨0x0D, param, false, false⟩
  | 0x03 => ⟨0x07, param, false, false⟩
  | 0x04 => ⟨0x09, param, false, false⟩
  | 0x05 => ⟨0x08, param, false, false⟩
  | 0x06 => ⟨0x0A, param, false, false⟩
  | 0x07 => ⟨0x10, param, false, false⟩
  | 0x09 => ⟨0x06, param, false, false⟩
  | 0x0A => ⟨0x0E, param, false, false⟩
  | 0x0B => ⟨0x14, 0, true, false⟩
  | 0x0C => ⟨0x00, param, false, false⟩
  | 0x0D => ⟨0x14, 0, false, true⟩
  | 0x0E =>
    match param &&& 0xF0 with
    | 0x10 => ⟨0x03, param &&& 0x0F, false, false⟩
    | 0x20 => ⟨0x04, param &&& 0x0F, false, false⟩
    | 0x90 => ⟨0x0F, param &&& 0x0F, false, false⟩
    | 0xA0 => ⟨0x01, param &&& 0x0F, false, false⟩
    | 0xB0 => ⟨0x02, param &&& 0x0F, false, false⟩
    | 0xC0 => ⟨0x11, param &&& 0x0F, false, false⟩
    | _ => ⟨0x14, 0, false, false⟩
  | 0x0F => ⟨0x12, param, false, false⟩
  | _ => ⟨0x14, 0, false, false⟩

/-- One fully translated pattern cell: resolved note, instrument, and
the translated effect, plus the raw parameter byte (the position-jump
target is compared against the order cursor before the parameter is
zeroed, src/mod2mus.cpp:348). -/
structure Cell where
  note : Nat
  instr : Nat
  command : Nat
  param : Nat
  jump : Bool
  jumpTarget : Nat
  brk : Bool
deriving DecidableEq

/-- Translation of one raw 4-byte cell (src/mod2mus.cpp:308-377):
decode the 12-bit period and the instrument number, then run the
effect switch. -/
def translateCell (b0 b1 b2 b3 : Nat) : Cell :=
  let period := ((b0 &&& 0x0F) <<< 8) ||| b1
  let note := noteFromPeriod period
  let instr := (b2 >>> 4) ||| (b0 &&& 0x10)
  let e := translateEffect (b2 &&& 0x0F) b3
  ⟨note, instr, e.command, e.param, e.jump, b3, e.brk⟩

/-- Per-channel playback state (`ChannelState` at src/mod2mus.cpp:278-285):
last-emitted note, instrument, command and parameter, all initialised to
the unused sentinel 0xFF, and the byte offset of an open repeat run
(0 when none is open). -/
structure ChannelState where
  note : Nat
  instr : Nat
  command : Nat
  param : Nat
  repeatOffset : Nat
deriving DecidableEq

/-- Initial channel state (all fields at the 0xFF sentinel, no open
repeat run). -/
def initChannel : ChannelState := ⟨0xFF, 0xFF, 0xFF, 0xFF, 0⟩

/-- The in-place OR of 0x80 into the last byte of the output stream
(`musicData.back() |= 0x80`, src/mod2mus.cpp:396). -/
def orLastByte (music : List Nat) : List Nat :=
  music.set (music.length - 1) (music.getD (music.length - 1) 0 ||| 0x80)

/-- The per-cell emission and compression step
(src/mod2mus.cpp:379-403): a cell identical to the last-emitted state
on all four fields increments an open repeat-count byte below 0xFF or
opens a new repeat run; otherwise the repeat run is closed, and a cell
matching on command and parameter only ORs 0x80 into the last stream
byte, while any other cell appends a full 4-byte event and updates the
channel state. -/
def emitCell (cs : ChannelState) (music : List Nat) (t : Cell) : ChannelState × List Nat :=
  if t.note = cs.note ∧ t.instr = cs.instr ∧ t.command = cs.command ∧ t.param = cs.param then
    if cs.repeatOffset ≠ 0 ∧ music.getD cs.repeatOffset 0 < 0xFF then
      (cs, music.set cs.repeatOffset (music.getD cs.repeatOffset 0 + 1))
    else
      ({cs with repeatOffset := music.length}, music ++ [0x80])
  else
    let cs2 := {cs with repeatOffset := 0}
    if t.command = cs2.command ∧ t.param = cs2.param then
      (cs2, orLastByte music)
    else
      (⟨t.note, t.instr, t.command, t.param, 0⟩, music ++ [t.note, t.instr, t.command, t.param])

/-- The validated input as the sequencer consumes it: channel count
derived from the magic signature, declared order count and restart
position, the 128-entry order list and the raw file bytes (a total
function on offsets; every value is masked to a byte at the read
site). -/
structure ModConfig where
  numChannels : Nat
  numOrders : Nat
  restartPos : Nat
  orderList : Nat → Nat
  file : Nat → Nat

/-- Reading one byte of the source file. -/
def byteAt (f : Nat → Nat) (p : Nat) : Nat := f p % 256

/-- Mutable sequencer state: source read position, the resume row
carried across pattern breaks, the per-channel states, the output
event stream, and the captured restart offset. -/
structure SeqState where
  pos : Nat
  startRow : Nat
  channels : List ChannelState
  music : List Nat
  restartOut : Nat

/-- The position-jump update of the order cursor
(`if(param > ord) ord = param - 1`, src/mod2mus.cpp:348-349). -/
def jumpOrd (target ord : Nat) : Nat := if target > ord then target - 1 else ord

/-- Processing of one channel's cell within a row
(src/mod2mus.cpp:301-404): read four bytes, translate, apply the
control-flow side effects of a position jump or pattern break to the
order cursor / resume row / row-loop flag, then run the emission
step.  The accumulator is (order cursor, state, row-loop broken). -/
def chanStep (cfg : ModConfig) (acc : Nat × SeqState × Bool) (chn : Nat) :
    Nat × SeqState × Bool :=
  let ord := acc.1
  let s := acc.2.1
  let b0 := byteAt cfg.file s.pos
  let b1 := byteAt cfg.file (s.pos + 1)
  let b2 := byteAt cfg.file (s.pos + 2)
  let b3 := byteAt cfg.file (s.pos + 3)
  let t := translateCell b0 b1 b2 b3
  let ord2 := if t.jump then jumpOrd t.jumpTarget ord else ord
  let startRow2 := if t.brk then t.param else if t.jump then 0 else s.startRow
  let cs := s.channels.getD chn initChannel
  let r := emitCell cs s.music t
  (ord2,
   { pos := s.pos + 4, startRow := startRow2,
     channels := s.channels.set chn r.1, music := r.2, restartOut := s.restartOut },
   acc.2.2 || t.jump || t.brk)

/-- Processing of one full row: every channel in sequence (the channel
loop at src/mod2mus.cpp:301 runs to completion even after a jump or
break fired, which only ends the enclosing row loop). -/
def processRowChannels (cfg : ModConfig) (ord : Nat) (s : SeqState) :
    Nat × SeqState × Bool :=
  (List.range cfg.numChannels).foldl (chanStep cfg) (ord, s, false)

/-- The row loop of one order (src/mod2mus.cpp:298-405): starting at
the carried resume row, process rows while the row index is below 64,
resetting the resume row at the top of each iteration and stopping
early when a jump or break fired within the row.  The fuel argument
(always called with 64, which bounds the number of iterations) makes
the recursion structural. -/
def rowLoop (cfg : ModConfig) : Nat → Nat → Nat → SeqState → Nat × SeqState
  | 0, ord, _, s => (ord, s)
  | fuel + 1, ord, row, s =>
    if row < 64 then
      let r := processRowChannels cfg ord { s with startRow := 0 }
      if r.2.2 then (r.1, r.2.1) else rowLoop cfg fuel r.1 (row + 1) r.2.1
    else (ord, s)

/-- One iteration of the order loop (src/mod2mus.cpp:291-405): seek to
the start of the pattern named by the order list, capture the restart
offset when this order is the declared restart position, then run the
row loop from the carried resume row. -/
def orderStep (cfg : ModConfig) (ord : Nat) (s : SeqState) : Nat × SeqState :=
  let s1 := { s with pos := 1084 + cfg.numChannels * 64 * 4 * (cfg.orderList ord % 256) }
  let s2 := if cfg.restartPos = ord then { s1 with restartOut := s1.music.length } else s1
  rowLoop cfg 64 ord s2.startRow s2

/-- The order loop (src/mod2mus.cpp:291): run order iterations while
the cursor is below the declared order count; the cursor advances by
at least one per iteration (a position jump can only move it further
forward), so fuel `numOrders` is always sufficient. -/
def orderLoop (cfg : ModConfig) : Nat → Nat → SeqState → SeqState
  | 0, _, s => s
  | fuel + 1, ord, s =>
    if ord < cfg.numOrders then
      let r := orderStep cfg ord s
      orderLoop cfg fuel (r.1 + 1) r.2
    else s

/-- Initial sequencer state (src/mod2mus.cpp:287-290). -/
def initSeq (cfg : ModConfig) : SeqState :=
  ⟨0, 0, List.replicate cfg.numChannels initChannel, [], 0⟩

/-- The whole pattern-sequencing pass. -/
def convert (cfg : ModConfig) : SeqState :=
  orderLoop cfg cfg.numOrders 0 (initSeq cfg)

/-- The destination header's music-size field
(`kmSong.musicSize = static_cast<uint32_t>(musicData.size())`,
src/mod2mus.cpp:409). -/
def musicSizeField (cfg : ModConfig) : Nat := (convert cfg).music.length % 2 ^ 32

/-- One source sample descriptor, with all three fields in source
words (uint16 values). -/
structure MODSampleHeader where
  length : Nat
  loopStart : Nat
  loopLength : Nat
deriving DecidableEq

/-- The destination sample size computed for a slot
(src/mod2mus.cpp:423-431): with a declared loop whose start lies
within the sample and whose field sum is nonzero, the doubled loop
start plus the doubled loop length; otherwise the doubled declared
length. -/
def kmSampleSize (m : MODSampleHeader) : Nat :=
  if m.loopLength > 1 ∧ m.loopStart < m.length ∧ m.loopStart + m.loopLength + m.length ≠ 0 then
    m.loopStart * 2 + m.loopLength * 2
  else
    m.length * 2

/-- One step of the destination sample pass (src/mod2mus.cpp:416-442):
`kmSampleSize` source bytes are read for every slot, but a chunk is
written only when the declared length is at least 2 words.  The
accumulator records the source read position, the offset at which each
slot's data read started, and the sizes of the chunks written so
far. -/
def samplePassStep (acc : Nat × List Nat × List Nat) (m : MODSampleHeader) :
    Nat × List Nat × List Nat :=
  let pos := acc.1
  let reads := acc.2.1 ++ [pos]
  if m.length < 2 then (pos + kmSampleSize m, reads, acc.2.2)
  else (pos + kmSampleSize m, reads, acc.2.2 ++ [kmSampleSize m])

/-- The destination sample pass over all 31 slots, starting at the
position of the first sample's data in the source file. -/
def samplePass (samples : List MODSampleHeader) (base : Nat) : Nat × List Nat × List Nat :=
  samples.foldl samplePassStep (base, [], [])

/-- Iterated emission of the same translated cell on one channel:
`emitIter t n` applies the emission step `n` times. -/
def emitIter (t : Cell) : Nat → ChannelState × List Nat → ChannelState × List Nat
  | 0, p => p
  | n + 1, p =>
    let q := emitIter t n p
    emitCell q.1 q.2 t

/-- Spec-side reference for the period resolver, following the words
of the claim: periods 0 and 0xFFF resolve to "no note" (0); otherwise
the first index `i` of the descending table with `period ≥ table[i]`
gives note `i + 1` on an exact match or at `i = 0`, note `i` when the
period is strictly closer in absolute distance to `table[i-1]` than to
`table[i]`, and note `i + 1` otherwise; 0 when no entry matches. -/
def noteClaimSpec (period : Nat) : Nat :=
  if period = 0 ∨ period = 0xFFF then 0
  else
    match ProTrackerPeriodTable.findIdx? (fun t => decide (period ≥ t)) with
    | none => 0
    | some i =>
      if period = ProTrackerPeriodTable.getD i 0 ∨ i = 0 then i + 1
      else if ((ProTrackerPeriodTable.getD (i - 1) 0 : Int) - (period : Int)).natAbs
              < ((period : Int) - (ProTrackerPeriodTable.getD i 0 : Int)).natAbs then i
      else i + 1

/-- Bounded boolean comparison of the period resolver against the
spec-side reference on the range `[lo, lo + n)`. -/
def noteCheckRange : Nat → Nat → Bool
  | _, 0 => true
  | lo, n + 1 => (noteFromPeriod lo == noteClaimSpec lo) && noteCheckRange (lo + 1) n

/-- Spec-side reference for the extended command, following the words
of the claim: six sub-commands selected by the parameter's high nibble
map to six distinct destination codes with the parameter masked to its
low nibble; every other sub-command degrades to "no effect, zero
parameter". -/
def extendedClaimSpec (param : Nat) : EffectResult :=
  if param &&& 0xF0 = 0x10 then ⟨0x03, param &&& 0x0F, false, false⟩
  else if param &&& 0xF0 = 0x20 then ⟨0x04, param &&& 0x0F, false, false⟩
  else if param &&& 0xF0 = 0x90 then ⟨0x0F, param &&& 0x0F, false, false⟩
  else if param &&& 0xF0 = 0xA0 then ⟨0x01, param &&& 0x0F, false, false⟩
  else if param &&& 0xF0 = 0xB0 then ⟨0x02, param &&& 0x0F, false, false⟩
  else if param &&& 0xF0 = 0xC0 then ⟨0x11, param &&& 0x0F, false, false⟩
  else ⟨0x14, 0, false, false⟩

/-- A concrete 2-channel input whose first pattern carries a pattern
break on channel 0 of row 0 and an ordinary note cell on channel 1 of
the same row. -/
def cfgBreakRow : ModConfig :=
  { numChannels := 2, numOrders := 1, restartPos := 5,
    orderList := fun _ => 0,
    file := fun p => [0, 0, 0x0D, 5, 0x01, 0xAC, 0x1C, 0x20].getD (p - 1084) 0 }

/-- A concrete 1-channel input whose rows 0 and 1 translate to the
same command and parameter but different notes, so that the
command-and-parameter continuation branch fires at row 1. -/
def cfgSameCommand : ModConfig :=
  { numChannels := 1, numOrders := 1, restartPos := 5,
    orderList := fun _ => 0,
    file := fun p => [0x01, 0xAC, 0x1C, 0x20, 0x03, 0x58, 0x1C, 0x20].getD (p - 1084) 0 }

/-- A concrete 1-channel input with three declared orders and restart
position 2, whose very first cell is a position jump to order 3: the
cursor skips over order 2, so the restart order is never visited. -/
def cfgJumpSkip : ModConfig :=
  { numChannels := 1, numOrders := 3, restartPos := 2,
    orderList := fun _ => 0,
    file := fun p => [0, 0, 0x0B, 3].getD (p - 1084) 0 }

theorem jumpOrd_ge (target ord : Nat) : ord ≤ jumpOrd target ord := by
  unfold jumpOrd; split <;> omega

theorem jumpOrd_of_le (target ord : Nat) (h : target ≤ ord) : jumpOrd target ord = ord := by
  unfold jumpOrd; split <;> omega

theorem chanStep_ord_ge (cfg : ModConfig) (acc : Nat × SeqState × Bool) (chn : Nat) :
    acc.1 ≤ (chanStep cfg acc chn).1 := by
  simp only [chanStep]
  split
  · exact jumpOrd_ge _ _
  · exact Nat.le_refl _

theorem foldl_chanStep_ord_ge (cfg : ModConfig) :
    ∀ (l : List Nat) (acc : Nat × SeqState × Bool), acc.1 ≤ (l.foldl (chanStep cfg) acc).1 := by
  intro l
  induction l with
  | nil => intro acc; exact Nat.le_refl _
  | cons a as ih => intro acc; exact Nat.le_trans (chanStep_ord_ge cfg acc a) (ih _)

theorem processRowChannels_ord_ge (cfg : ModConfig) (ord : Nat) (s : SeqState) :
    ord ≤ (processRowChannels cfg ord s).1 := by
  unfold processRowChannels
  exact foldl_chanStep_ord_ge cfg (List.range cfg.numChannels) (ord, s, false)

theorem rowLoop_ord_ge (cfg : ModConfig) :
    ∀ (fuel ord row : Nat) (s : SeqState), ord ≤ (rowLoop cfg fuel ord row s).1 := by
  intro fuel
  induction fuel with
  | zero => intro ord row s; exact Nat.le_refl _
  | succ f ih =>
    intro ord row s
    rw [rowLoop]
    split
    · dsimp only
      split
      · exact processRowChannels_ord_ge cfg ord _
      · exact Nat.le_trans (processRowChannels_ord_ge cfg ord _) (ih _ _ _)
    · exact Nat.le_refl _

theorem orderStep_ord_ge (cfg : ModConfig) (ord : Nat) (s : SeqState) :
    ord ≤ (orderStep cfg ord s).1 := by
  unfold orderStep
  exact rowLoop_ord_ge cfg _ _ _ _

theorem chanStep_restart (cfg : ModConfig) (acc : Nat × SeqState × Bool) (chn : Nat) :
    (chanStep cfg acc chn).2.1.restartOut = acc.2.1.restartOut := rfl

theorem chanStep_pos (cfg : ModConfig) (acc : Nat × SeqState × Bool) (chn : Nat) :
    (chanStep cfg acc chn).2.1.pos = acc.2.1.pos + 4 := rfl

theorem chanStep_broken_state (cfg : ModConfig) (ord : Nat) (s : SeqState) (b : Bool) (chn : Nat) :
    (chanStep cfg (ord, s, b) chn).2.1 = (chanStep cfg (ord, s, false) chn).2.1 ∧
    (chanStep cfg (ord, s, b) chn).1 = (chanStep cfg (ord, s, false) chn).1 :=
  ⟨rfl, rfl⟩

theorem foldl_chanStep_restart (cfg : ModConfig) :
    ∀ (l : List Nat) (acc : Nat × SeqState × Bool),
      (l.foldl (chanStep cfg) acc).2.1.restartOut = acc.2.1.restartOut := by
  intro l
  induction l with
  | nil => intro acc; rfl
  | cons a as ih => intro acc; rw [List.foldl_cons, ih, chanStep_restart]

theorem foldl_chanStep_pos (cfg : ModConfig) :
    ∀ (l : List Nat) (acc : Nat × SeqState × Bool),
      (l.foldl (chanStep cfg) acc).2.1.pos = acc.2.1.pos + 4 * l.length := by
  intro l
  induction l with
  | nil => intro acc; simp
  | cons a as ih =>
    intro acc
    rw [List.foldl_cons, ih, chanStep_pos]
    simp
    omega

theorem processRowChannels_pos (cfg : ModConfig) (ord : Nat) (s : SeqState) :
    (processRowChannels cfg ord s).2.1.pos = s.pos + 4 * cfg.numChannels := by
  unfold processRowChannels
  rw [foldl_chanStep_pos]
  simp

theorem rowLoop_restart (cfg : ModConfig) :
    ∀ (fuel ord row : Nat) (s : SeqState),
      (rowLoop cfg fuel ord row s).2.restartOut = s.restartOut := by
  intro fuel
  induction fuel with
  | zero => intro ord row s; rfl
  | succ f ih =>
    intro ord row s
    rw [rowLoop]
    split
    · dsimp only
      split
      · exact foldl_chanStep_restart cfg _ _
      · rw [ih]; exact foldl_chanStep_restart cfg _ _
    · rfl

theorem orLastByte_length (music : List Nat) : (orLastByte music).length = music.length := by
  unfold orLastByte
  exact List.length_set music _ _

theorem emitCell_len_ge (cs : ChannelState) (music : List Nat) (t : Cell) :
    music.length ≤ (emitCell cs music t).2.length := by
  unfold emitCell
  split
  · split <;> simp
  · dsimp only
    split
    · simp [orLastByte_length]
    · simp

theorem emitCell_len_le (cs : ChannelState) (music : List Nat) (t : Cell) :
    (emitCell cs music t).2.length ≤ music.length + 4 := by
  unfold emitCell
  split
  · split <;> simp
  · dsimp only
    split
    · simp [orLastByte_length]
    · simp

theorem chanStep_music_ge (cfg : ModConfig) (acc : Nat × SeqState × Bool) (chn : Nat) :
    acc.2.1.music.length ≤ (chanStep cfg acc chn).2.1.music.length := by
  simp only [chanStep]
  exact emitCell_len_ge _ _ _

theorem chanStep_music_le (cfg : ModConfig) (acc : Nat × SeqState × Bool) (chn : Nat) :
    (chanStep cfg acc chn).2.1.music.length ≤ acc.2.1.music.length + 4 := by
  simp only [chanStep]
  exact emitCell_len_le _ _ _

theorem foldl_chanStep_music_ge (cfg : ModConfig) :
    ∀ (l : List Nat) (acc : Nat × SeqState × Bool) (n : Nat), n ≤ acc.2.1.music.length →
      n ≤ (l.foldl (chanStep cfg) acc).2.1.music.length := by
  intro l
  induction l with
  | nil => intro acc n h; exact h
  | cons a as ih =>
    intro acc n h
    exact ih _ n (Nat.le_trans h (chanStep_music_ge cfg acc a))

theorem foldl_chanStep_music_le (cfg : ModConfig) :
    ∀ (l : List Nat) (acc : Nat × SeqState × Bool) (n : Nat), acc.2.1.music.length ≤ n →
      (l.foldl (chanStep cfg) acc).2.1.music.length ≤ n + 4 * l.length := by
  intro l
  induction l with
  | nil => intro acc n h; simpa using h
  | cons a as ih =>
    intro acc n h
    have h1 : (chanStep cfg acc a).2.1.music.length ≤ n + 4 :=
      Nat.le_trans (chanStep_music_le cfg acc a) (Nat.add_le_add_right h 4)
    have h2 := ih (chanStep cfg acc a) (n + 4) h1
    calc ((a :: as).foldl (chanStep cfg) acc).2.1.music.length
        ≤ n + 4 + 4 * as.length := h2
      _ = n + 4 * (a :: as).length := by simp [List.length_cons]; ring
      _ = n + 4 * (a :: as).length := rfl

theorem processRow0_music_ge (cfg : ModConfig) (ord : Nat) (s : SeqState) :
    s.music.length ≤ (processRowChannels cfg ord { s with startRow := 0 }).2.1.music.length := by
  unfold processRowChannels
  exact foldl_chanStep_music_ge cfg (List.range cfg.numChannels) _ _ (Nat.le_refl _)

theorem processRow0_music_le (cfg : ModConfig) (ord : Nat) (s : SeqState) :
    (processRowChannels cfg ord { s with startRow := 0 }).2.1.music.length
      ≤ s.music.length + 4 * cfg.numChannels := by
  unfold processRowChannels
  have h := foldl_chanStep_music_le cfg (List.range cfg.numChannels)
    (ord, { s with startRow := 0 }, false) s.music.length (Nat.le_refl _)
  simpa using h

theorem rowLoop_music_ge (cfg : ModConfig) :
    ∀ (fuel ord row : Nat) (s : SeqState) (n : Nat), n ≤ s.music.length →
      n ≤ (rowLoop cfg fuel ord row s).2.music.length := by
  intro fuel
  induction fuel with
  | zero => intro ord row s n h; exact h
  | succ f ih =>
    intro ord row s n h
    rw [rowLoop]
    split
    · dsimp only
      split
      · exact Nat.le_trans h (processRow0_music_ge cfg ord s)
      · exact ih _ _ _ n (Nat.le_trans h (processRow0_music_ge cfg ord s))
    · exact h

theorem rowLoop_music_le (cfg : ModConfig) :
    ∀ (fuel ord row : Nat) (s : SeqState) (n : Nat), s.music.length ≤ n →
      (rowLoop cfg fuel ord row s).2.music.length ≤ n + 4 * cfg.numChannels * fuel := by
  intro fuel
  induction fuel with
  | zero => intro ord row s n h; simpa using h
  | succ f ih =>
    intro ord row s n h
    rw [rowLoop]
    split
    · dsimp only
      split
      · have h1 : (processRowChannels cfg ord { s with startRow := 0 }).2.1.music.length
            ≤ n + 4 * cfg.numChannels :=
          Nat.le_trans (processRow0_music_le cfg ord s) (Nat.add_le_add_right h _)
        calc (processRowChannels cfg ord { s with startRow := 0 }).2.1.music.length
            ≤ n + 4 * cfg.numChannels := h1
          _ ≤ n + 4 * cfg.numChannels * (f + 1) := by nlinarith [Nat.zero_le (4 * cfg.numChannels * f)]
      · have h1 : (processRowChannels cfg ord { s with startRow := 0 }).2.1.music.length
            ≤ n + 4 * cfg.numChannels :=
          Nat.le_trans (processRow0_music_le cfg ord s) (Nat.add_le_add_right h _)
        have h2 := ih (processRowChannels cfg ord { s with startRow := 0 }).1 (row + 1)
          (processRowChannels cfg ord { s with startRow := 0 }).2.1
          (n + 4 * cfg.numChannels) h1
        calc (rowLoop cfg f (processRowChannels cfg ord { s with startRow := 0 }).1 (row + 1)
                (processRowChannels cfg ord { s with startRow := 0 }).2.1).2.music.length
            ≤ n + 4 * cfg.numChannels + 4 * cfg.numChannels * f := h2
          _ = n + 4 * cfg.numChannels * (f + 1) := by ring
    · exact Nat.le_trans h (by nlinarith [Nat.zero_le (4 * cfg.numChannels * (f + 1))])

theorem orderStep_music_ge (cfg : ModConfig) (ord : Nat) (s : SeqState) :
    s.music.length ≤ (orderStep cfg ord s).2.music.length := by
  unfold orderStep
  dsimp only
  split <;> exact rowLoop_music_ge cfg 64 ord _ _ _ (Nat.le_refl _)

theorem orderStep_music_le (cfg : ModConfig) (ord : Nat) (s : SeqState) :
    (orderStep cfg ord s).2.music.length ≤ s.music.length + 4 * cfg.numChannels * 64 := by
  unfold orderStep
  dsimp only
  split <;> exact rowLoop_music_le cfg 64 ord _ _ _ (Nat.le_refl _)

theorem orderLoop_music_ge (cfg : ModConfig) :
    ∀ (fuel ord : Nat) (s : SeqState) (n : Nat), n ≤ s.music.length →
      n ≤ (orderLoop cfg fuel ord s).music.length := by
  intro fuel
  induction fuel with
  | zero => intro ord s n h; exact h
  | succ f ih =>
    intro ord s n h
    rw [orderLoop]
    split
    · exact ih _ _ n (Nat.le_trans h (orderStep_music_ge cfg ord s))
    · exact h

theorem orderLoop_music_le (cfg : ModConfig) :
    ∀ (fuel ord : Nat) (s : SeqState) (n : Nat), s.music.length ≤ n →
      (orderLoop cfg fuel ord s).music.length ≤ n + 4 * cfg.numChannels * 64 * fuel := by
  intro fuel
  induction fuel with
  | zero => intro ord s n h; simpa using h
  | succ f ih =>
    intro ord s n h
    rw [orderLoop]
    split
    · have h1 : (orderStep cfg ord s).2.music.length ≤ n + 4 * cfg.numChannels * 64 :=
        Nat.le_trans (orderStep_music_le cfg ord s) (Nat.add_le_add_right h _)
      have h2 := ih ((orderStep cfg ord s).1 + 1) (orderStep cfg ord s).2
        (n + 4 * cfg.numChannels * 64) h1
      calc (orderLoop cfg f ((orderStep cfg ord s).1 + 1) (orderStep cfg ord s).2).music.length
          ≤ n + 4 * cfg.numChannels * 64 + 4 * cfg.numChannels * 64 * f := h2
        _ = n + 4 * cfg.numChannels * 64 * (f + 1) := by ring
    · exact Nat.le_trans h (by nlinarith [Nat.zero_le (4 * cfg.numChannels * 64 * (f + 1))])

theorem convert_music_le (cfg : ModConfig) :
    (convert cfg).music.length ≤ 4 * cfg.numChannels * 64 * cfg.numOrders := by
  unfold convert
  have h := orderLoop_music_le cfg cfg.numOrders 0 (initSeq cfg) 0 (Nat.le_refl _)
  simpa using h

theorem translateEffect_brk_param (c p : Nat) (h : (translateEffect c p).brk = true) :
    (translateEffect c p).param = 0 := by
  unfold translateEffect at h ⊢
  split at h
  any_goals simp_all
  · split at h <;> simp_all
  · split at h <;> simp_all

theorem translateCell_brk_param (b0 b1 b2 b3 : Nat)
    (h : (translateCell b0 b1 b2 b3).brk = true) :
    (translateCell b0 b1 b2 b3).param = 0 :=
  translateEffect_brk_param (b2 &&& 0x0F) b3 h

theorem chanStep_startRow0 (cfg : ModConfig) (acc : Nat × SeqState × Bool) (chn : Nat)
    (h : acc.2.1.startRow = 0) : (chanStep cfg acc chn).2.1.startRow = 0 := by
  simp only [chanStep]
  split
  · exact translateCell_brk_param _ _ _ _ (by assumption)
  · split
    · rfl
    · exact h

theorem foldl_chanStep_startRow0 (cfg : ModConfig) :
    ∀ (l : List Nat) (acc : Nat × SeqState × Bool), acc.2.1.startRow = 0 →
      (l.foldl (chanStep cfg) acc).2.1.startRow = 0 := by
  intro l
  induction l with
  | nil => intro acc h; exact h
  | cons a as ih => intro acc h; exact ih _ (chanStep_startRow0 cfg acc a h)

theorem processRow0_startRow (cfg : ModConfig) (ord : Nat) (s : SeqState) :
    (processRowChannels cfg ord { s with startRow := 0 }).2.1.startRow = 0 := by
  unfold processRowChannels
  exact foldl_chanStep_startRow0 cfg (List.range cfg.numChannels) _ rfl

theorem rowLoop_stop (cfg : ModConfig) (fuel ord row : Nat) (s : SeqState) (hrow : row < 64)
    (hbrk : (processRowChannels cfg ord { s with startRow := 0 }).2.2 = true) :
    rowLoop cfg (fuel + 1) ord row s
      = ((processRowChannels cfg ord { s with startRow := 0 }).1,
         (processRowChannels cfg ord { s with startRow := 0 }).2.1) := by
  rw [rowLoop, if_pos hrow]
  dsimp only
  rw [if_pos hbrk]

theorem orderLoop_restart_frozen (cfg : ModConfig) :
    ∀ (fuel ord : Nat) (s : SeqState), cfg.restartPos < ord →
      (orderLoop cfg fuel ord s).restartOut = s.restartOut := by
  intro fuel
  induction fuel with
  | zero => intro ord s _; rfl
  | succ f ih =>
    intro ord s h
    rw [orderLoop]
    split
    · have hstep : (orderStep cfg ord s).2.restartOut = s.restartOut := by
        unfold orderStep
        dsimp only
        rw [if_neg (by omega : ¬ cfg.restartPos = ord)]
        exact rowLoop_restart cfg 64 ord _ _
      have hord : ord ≤ (orderStep cfg ord s).1 := orderStep_ord_ge cfg ord s
      rw [ih _ _ (by omega), hstep]
    · rfl

theorem orderStep_restart_hit (cfg : ModConfig) (ord : Nat) (s : SeqState)
    (h : cfg.restartPos = ord) :
    (orderStep cfg ord s).2.restartOut = s.music.length := by
  unfold orderStep
  dsimp only
  rw [if_pos h]
  exact rowLoop_restart cfg 64 ord _ _

theorem orderLoop_fuel (cfg : ModConfig) :
    ∀ (k fuel ord : Nat) (s : SeqState), cfg.numOrders - ord = k → k ≤ fuel →
      orderLoop cfg fuel ord s = orderLoop cfg k ord s := by
  intro k
  induction k using Nat.strong_induction_on with
  | _ k ih =>
    intro fuel ord s hk hfuel
    cases k with
    | zero =>
      have hord : ¬ ord < cfg.numOrders := by omega
      cases fuel with
      | zero => rfl
      | succ f =>
        conv_lhs => rw [orderLoop]
        rw [if_neg hord]
        rfl
    | succ k' =>
      have hord : ord < cfg.numOrders := by omega
      obtain ⟨f, rfl⟩ : ∃ f, fuel = f + 1 := ⟨fuel - 1, by omega⟩
      rw [orderLoop, orderLoop, if_pos hord, if_pos hord]
      dsimp only
      have hstep := orderStep_ord_ge cfg ord s
      have h1 := ih (cfg.numOrders - ((orderStep cfg ord s).1 + 1)) (by omega) f
        ((orderStep cfg ord s).1 + 1) (orderStep cfg ord s).2 rfl (by omega)
      have h2 := ih (cfg.numOrders - ((orderStep cfg ord s).1 + 1)) (by omega) k'
        ((orderStep cfg ord s).1 + 1) (orderStep cfg ord s).2 rfl (by omega)
      rw [h1, h2]

theorem getD_append_self (l : List Nat) (a : Nat) (k : Nat) (hk : k = l.length) :
    (l ++ [a]).getD k 0 = a := by
  subst hk
  induction l with
  | nil => rfl
  | cons b bs ih => simp

theorem set_append_self (l : List Nat) (a b : Nat) (k : Nat) (hk : k = l.length) :
    (l ++ [a]).set k b = l ++ [b] := by
  subst hk
  induction l with
  | nil => rfl
  | cons c cs ih => simp

theorem emitCell_full (cs : ChannelState) (music : List Nat) (t : Cell)
    (h1 : ¬(t.note = cs.note ∧ t.instr = cs.instr ∧ t.command = cs.command ∧ t.param = cs.param))
    (h2 : ¬(t.command = cs.command ∧ t.param = cs.param)) :
    emitCell cs music t
      = (⟨t.note, t.instr, t.command, t.param, 0⟩,
         music ++ [t.note, t.instr, t.command, t.param]) := by
  unfold emitCell
  rw [if_neg h1]
  dsimp only
  rw [if_neg h2]

theorem emitCell_cont (cs : ChannelState) (music : List Nat) (t : Cell)
    (h1 : ¬(t.note = cs.note ∧ t.instr = cs.instr ∧ t.command = cs.command ∧ t.param = cs.param))
    (h2 : t.command = cs.command) (h3 : t.param = cs.param) :
    emitCell cs music t = ({cs with repeatOffset := 0}, orLastByte music) := by
  unfold emitCell
  rw [if_neg h1]
  dsimp only
  rw [if_pos ⟨h2, h3⟩]

theorem emitCell_hold_fresh (cs : ChannelState) (music : List Nat) (t : Cell)
    (h1 : t.note = cs.note ∧ t.instr = cs.instr ∧ t.command = cs.command ∧ t.param = cs.param)
    (h2 : ¬(cs.repeatOffset ≠ 0 ∧ music.getD cs.repeatOffset 0 < 0xFF)) :
    emitCell cs music t = ({cs with repeatOffset := music.length}, music ++ [0x80]) := by
  unfold emitCell
  rw [if_pos h1, if_neg h2]

theorem emitCell_hold_inc (cs : ChannelState) (music : List Nat) (t : Cell)
    (h1 : t.note = cs.note ∧ t.instr = cs.instr ∧ t.command = cs.command ∧ t.param = cs.param)
    (h2 : cs.repeatOffset ≠ 0) (h3 : music.getD cs.repeatOffset 0 < 0xFF) :
    emitCell cs music t = (cs, music.set cs.repeatOffset (music.getD cs.repeatOffset 0 + 1)) := by
  unfold emitCell
  rw [if_pos h1, if_pos ⟨h2, h3⟩]

theorem emitIter_succ (t : Cell) (n : Nat) (p : ChannelState × List Nat) :
    emitIter t (n + 1) p = emitCell (emitIter t n p).1 (emitIter t n p).2 t := rfl

theorem emitRun (t : Cell) (cs0 : ChannelState) (music0 : List Nat)
    (h1 : ¬(t.note = cs0.note ∧ t.instr = cs0.instr ∧ t.command = cs0.command ∧
            t.param = cs0.param))
    (h2 : ¬(t.command = cs0.command ∧ t.param = cs0.param)) :
    ∀ n, 2 ≤ n → n ≤ 129 →
      emitIter t n (cs0, music0)
        = (⟨t.note, t.instr, t.command, t.param, music0.length + 4⟩,
           music0 ++ [t.note, t.instr, t.command, t.param] ++ [0x7E + n]) := by
  intro n hn2
  induction n, hn2 using Nat.le_induction with
  | base =>
    intro _
    have e2 : emitIter t 2 (cs0, music0)
        = emitCell (emitCell cs0 music0 t).1 (emitCell cs0 music0 t).2 t := rfl
    rw [e2, emitCell_full cs0 music0 t h1 h2]
    dsimp only
    rw [emitCell_hold_fresh _ _ _ ⟨rfl, rfl, rfl, rfl⟩ (by simp)]
    simp
  | succ n hn ih =>
    intro h129
    have hprev := ih (by omega)
    rw [emitIter_succ, hprev]
    dsimp only
    have hlen : music0.length + 4 = (music0 ++ [t.note, t.instr, t.command, t.param]).length := by
      simp
    have hgetD : ((music0 ++ [t.note, t.instr, t.command, t.param]) ++ [0x7E + n]).getD
        (music0.length + 4) 0 = 0x7E + n :=
      getD_append_self _ _ _ hlen
    have hoff : music0.length + 4 ≠ 0 := by omega
    have hlt : ((music0 ++ [t.note, t.instr, t.command, t.param]) ++ [0x7E + n]).getD
        (music0.length + 4) 0 < 0xFF := by rw [hgetD]; omega
    rw [emitCell_hold_inc _ _ _ ⟨rfl, rfl, rfl, rfl⟩ hoff hlt]
    rw [hgetD, set_append_self _ _ _ _ hlen]
    have : 0x7E + n + 1 = 0x7E + (n + 1) := by omega
    rw [this]

theorem emitRun_saturate (t : Cell) (cs0 : ChannelState) (music0 : List Nat)
    (h1 : ¬(t.note = cs0.note ∧ t.instr = cs0.instr ∧ t.command = cs0.command ∧
            t.param = cs0.param))
    (h2 : ¬(t.command = cs0.command ∧ t.param = cs0.param)) :
    emitIter t 130 (cs0, music0)
      = (⟨t.note, t.instr, t.command, t.param, music0.length + 5⟩,
         music0 ++ [t.note, t.instr, t.command, t.param] ++ [0xFF] ++ [0x80]) := by
  have h129 := emitRun t cs0 music0 h1 h2 129 (by omega) (by omega)
  have e : emitIter t 130 (cs0, music0)
      = emitCell (emitIter t 129 (cs0, music0)).1 (emitIter t 129 (cs0, music0)).2 t := rfl
  rw [e, h129]
  dsimp only
  have hlen : music0.length + 4 = (music0 ++ [t.note, t.instr, t.command, t.param]).length := by
    simp
  have hgetD : ((music0 ++ [t.note, t.instr, t.command, t.param]) ++ [0x7E + 129]).getD
      (music0.length + 4) 0 = 0x7E + 129 :=
    getD_append_self _ _ _ hlen
  have hnot : ¬(music0.length + 4 ≠ 0 ∧
      ((music0 ++ [t.note, t.instr, t.command, t.param]) ++ [0x7E + 129]).getD
        (music0.length + 4) 0 < 0xFF) := by
    rw [not_and]
    intro _
    rw [hgetD]
    omega
  rw [emitCell_hold_fresh _ _ _ ⟨rfl, rfl, rfl, rfl⟩ hnot]
  simp

-- C4 theorem block appended to defs
theorem noteCheckRange_sound : ∀ n lo, noteCheckRange lo n = true →
    ∀ p, lo ≤ p → p < lo + n → noteFromPeriod p = noteClaimSpec p := by
  intro n
  induction n with
  | zero => intro lo _ p h1 h2; omega
  | succ m ih =>
    intro lo h p h1 h2
    rw [noteCheckRange, Bool.and_eq_true] at h
    rcases Nat.eq_or_lt_of_le h1 with h3 | h3
    · subst h3; exact eq_of_beq h.1
    · exact ih (lo + 1) h.2 p h3 (by omega)

set_option maxRecDepth 4000 in
theorem noteChunk0 : noteCheckRange 0 512 = true := by rfl
set_option maxRecDepth 4000 in
theorem noteChunk1 : noteCheckRange 512 512 = true := by rfl
set_option maxRecDepth 4000 in
theorem noteChunk2 : noteCheckRange 1024 512 = true := by rfl
set_option maxRecDepth 4000 in
theorem noteChunk3 : noteCheckRange 1536 512 = true := by rfl
set_option maxRecDepth 4000 in
theorem noteChunk4 : noteCheckRange 2048 512 = true := by rfl
set_option maxRecDepth 4000 in
theorem noteChunk5 : noteCheckRange 2560 512 = true := by rfl
set_option maxRecDepth 4000 in
theorem noteChunk6 : noteCheckRange 3072 512 = true := by rfl
set_option maxRecDepth 4000 in
theorem noteChunk7 : noteCheckRange 3584 512 = true := by rfl

/-- C4: for every 12-bit period value, the period-to-note resolver of
the code behaves as the reference algorithm of the claim: periods 0
and 0xFFF resolve to note 0 ("no note"), and otherwise the first-match
scan with its asymmetric nearest-neighbour tie-break decides the
note. -/
theorem C4_period_resolver (p : Nat) (hp : p < 4096) :
    noteFromPeriod p = noteClaimSpec p := by
  rcases Nat.lt_or_ge p 512 with h | h
  · exact noteCheckRange_sound 512 0 noteChunk0 p (Nat.zero_le p) (by omega)
  rcases Nat.lt_or_ge p 1024 with h2 | h2
  · exact noteCheckRange_sound 512 512 noteChunk1 p h (by omega)
  rcases Nat.lt_or_ge p 1536 with h3 | h3
  · exact noteCheckRange_sound 512 1024 noteChunk2 p h2 (by omega)
  rcases Nat.lt_or_ge p 2048 with h4 | h4
  · exact noteCheckRange_sound 512 1536 noteChunk3 p h3 (by omega)
  rcases Nat.lt_or_ge p 2560 with h5 | h5
  · exact noteCheckRange_sound 512 2048 noteChunk4 p h4 (by omega)
  rcases Nat.lt_or_ge p 3072 with h6 | h6
  · exact noteCheckRange_sound 512 2560 noteChunk5 p h5 (by omega)
  rcases Nat.lt_or_ge p 3584 with h7 | h7
  · exact noteCheckRange_sound 512 3072 noteChunk6 p h6 (by omega)
  · exact noteCheckRange_sound 512 3584 noteChunk7 p h7 (by omega)

/-- Witness for C4 at period 428: an exact table match that resolves
to note 13. -/
theorem C4_period_resolver_witness :
    428 < 4096 ∧ noteFromPeriod 428 = noteClaimSpec 428 :=
  ⟨by decide, C4_period_resolver 428 (by decide)⟩

theorem orLastByte_getD_frame (music : List Nat) (i : Nat) (hi : i + 1 < music.length) :
    (orLastByte music).getD i 0 = music.getD i 0 := by
  unfold orLastByte
  simp only [List.getD_eq_getElem?_getD]
  rw [List.getElem?_set_ne (by omega)]

theorem orLastByte_getD_last (music : List Nat) (hm : music ≠ []) :
    (orLastByte music).getD (music.length - 1) 0 = music.getD (music.length - 1) 0 ||| 0x80 := by
  unfold orLastByte
  have hlt : music.length - 1 < music.length := by
    cases music with
    | nil => simp at hm
    | cons a l => simp
  rw [List.getD_eq_getElem?_getD, List.getElem?_set_eq_of_lt _ hlt]
  rfl

/-- C1 (amended): when a position jump or pattern break fires on some
channel of a row, the row loop stops after the current row — but the
row itself is still processed in full: every channel's 4-byte cell is
read (the read position advances by exactly 4 bytes per channel of the
row), the emission step of a cell is unaffected by a previously fired
signal, and once the row's channel fold reports the signal, the row
loop returns that fold's state without touching any further row. -/
theorem C1_break_row_completion :
    (∀ (cfg : ModConfig) (ord : Nat) (s : SeqState),
      (processRowChannels cfg ord s).2.1.pos = s.pos + 4 * cfg.numChannels)
    ∧ (∀ (cfg : ModConfig) (ord : Nat) (s : SeqState) (b : Bool) (chn : Nat),
      (chanStep cfg (ord, s, b) chn).2.1 = (chanStep cfg (ord, s, false) chn).2.1)
    ∧ (∀ (cfg : ModConfig) (fuel ord row : Nat) (s : SeqState), row < 64 →
      (processRowChannels cfg ord { s with startRow := 0 }).2.2 = true →
      rowLoop cfg (fuel + 1) ord row s
        = ((processRowChannels cfg ord { s with startRow := 0 }).1,
           (processRowChannels cfg ord { s with startRow := 0 }).2.1)) :=
  ⟨fun cfg ord s => processRowChannels_pos cfg ord s,
   fun _ _ _ _ _ => rfl,
   fun cfg fuel ord row s hrow hbrk => rowLoop_stop cfg fuel ord row s hrow hbrk⟩

/-- Witness for C1 at the concrete 2-channel input `cfgBreakRow`: row
0 fires the break, and the row loop returns that row's fold result. -/
theorem C1_break_row_completion_witness :
    (0 < 64)
    ∧ (processRowChannels cfgBreakRow 0
        { pos := 1084, startRow := 0, channels := List.replicate 2 initChannel, music := [],
          restartOut := 0 }).2.2 = true
    ∧ rowLoop cfgBreakRow 64 0 0
        ⟨1084, 0, List.replicate 2 initChannel, [], 0⟩
      = ((processRowChannels cfgBreakRow 0
            ⟨1084, 0, List.replicate 2 initChannel, [], 0⟩).1,
         (processRowChannels cfgBreakRow 0
            ⟨1084, 0, List.replicate 2 initChannel, [], 0⟩).2.1) :=
  ⟨by decide, by decide,
   C1_break_row_completion.2.2 cfgBreakRow 63 0 0
     ⟨1084, 0, List.replicate 2 initChannel, [], 0⟩ (by decide) (by decide)⟩

set_option maxRecDepth 8000 in
/-- Counterexample to C1 as stated: on `cfgBreakRow` the pattern break
fires on channel 0 of row 0, yet channel 1 of the same row is still
translated and contributes its own 4-byte event (bytes 13, 1, 0, 0x20)
to the output stream; under the claim the stream would have ended
after channel 0's four bytes. -/
theorem C1_break_row_counterexample :
    (convert cfgBreakRow).music = [0, 0, 0x14, 0, 13, 1, 0, 0x20]
    ∧ (convert cfgBreakRow).music.length ≠ 4 := by
  decide

/-- C2 (amended): when a translated cell matches the channel's
last-emitted command and parameter but not all four fields, no event
is appended: the stream keeps its length and the flag bit 0x80 is
OR-ed into the **last byte of the stream** (which is the most recently
written byte — in general a parameter or repeat-count byte, not a
command byte); no other byte changes. -/
theorem C2_continuation_flag (cs : ChannelState) (music : List Nat) (t : Cell)
    (h1 : ¬(t.note = cs.note ∧ t.instr = cs.instr ∧ t.command = cs.command ∧
            t.param = cs.param))
    (h2 : t.command = cs.command) (h3 : t.param = cs.param) (hm : music ≠ []) :
    emitCell cs music t = ({cs with repeatOffset := 0}, orLastByte music)
    ∧ (orLastByte music).length = music.length
    ∧ (∀ i, i + 1 < music.length → (orLastByte music).getD i 0 = music.getD i 0)
    ∧ (orLastByte music).getD (music.length - 1) 0
        = music.getD (music.length - 1) 0 ||| 0x80 :=
  ⟨emitCell_cont cs music t h1 h2 h3, orLastByte_length music,
   fun i hi => orLastByte_getD_frame music i hi, orLastByte_getD_last music hm⟩

/-- Witness for C2: a concrete continuation step (same command 0 and
parameter 0x20, different note) rewrites only the last stream byte. -/
theorem C2_continuation_flag_witness :
    emitCell ⟨13, 1, 0, 0x20, 0⟩ [13, 1, 0, 0x20] ⟨1, 1, 0, 0x20, false, 0, false⟩
      = (⟨13, 1, 0, 0x20, 0⟩, orLastByte [13, 1, 0, 0x20])
    ∧ (orLastByte [13, 1, 0, 0x20]).getD 3 0 = [13, 1, 0, 0x20].getD 3 0 ||| 0x80 :=
  ⟨(C2_continuation_flag ⟨13, 1, 0, 0x20, 0⟩ [13, 1, 0, 0x20] ⟨1, 1, 0, 0x20, false, 0, false⟩
      (by decide) rfl rfl (by decide)).1,
   (C2_continuation_flag ⟨13, 1, 0, 0x20, 0⟩ [13, 1, 0, 0x20] ⟨1, 1, 0, 0x20, false, 0, false⟩
      (by decide) rfl rfl (by decide)).2.2.2⟩

set_option maxRecDepth 8000 in
/-- Counterexample to C2 as stated: on `cfgSameCommand`, row 1 repeats
row 0's command 0 and parameter 0x20 with a different note; the code
ORs 0x80 into the stream's last byte — the **parameter** byte 0x20 at
index 3, which becomes 0xA0 — while the most recently emitted command
byte (index 2, value 0) is left untouched, contradicting the claimed
mutation of the command byte. -/
theorem C2_continuation_flag_counterexample :
    (convert cfgSameCommand).music = [13, 1, 0, 0xA0, 0, 0, 0x14, 0, 0xBC]
    ∧ (convert cfgSameCommand).music.getD 2 0 = 0
    ∧ (convert cfgSameCommand).music.getD 3 0 = 0x20 ||| 0x80 := by
  decide

/-- C3: a run of N identical translated cells on one channel (entered
from a state that forces a full event) yields exactly one 4-byte event
followed by exactly one repeat-count byte, whose value 0x7E + N
encodes N - 1 repeats (0x80 for one repeat); the count byte is
incremented only while below 0xFF, and one further identical cell
after the count byte has reached 0xFF (N = 129) opens a fresh
repeat-run byte 0x80 instead of overflowing the saturated one. -/
theorem C3_hold_compression (t : Cell) (cs0 : ChannelState) (music0 : List Nat)
    (h1 : ¬(t.note = cs0.note ∧ t.instr = cs0.instr ∧ t.command = cs0.command ∧
            t.param = cs0.param))
    (h2 : ¬(t.command = cs0.command ∧ t.param = cs0.param))
    (N : Nat) (hN2 : 2 ≤ N) (hN : N ≤ 129) :
    emitIter t N (cs0, music0)
      = (⟨t.note, t.instr, t.command, t.param, music0.length + 4⟩,
         music0 ++ [t.note, t.instr, t.command, t.param] ++ [0x7E + N])
    ∧ emitIter t 130 (cs0, music0)
      = (⟨t.note, t.instr, t.command, t.param, music0.length + 5⟩,
         music0 ++ [t.note, t.instr, t.command, t.param] ++ [0xFF] ++ [0x80]) :=
  ⟨emitRun t cs0 music0 h1 h2 N hN2 hN, emitRun_saturate t cs0 music0 h1 h2⟩

/-- Witness for C3: three identical cells from the initial channel
state produce one event and one count byte 0x81 (two repeats). -/
theorem C3_hold_compression_witness :
    emitIter ⟨13, 1, 0, 0x20, false, 0x20, false⟩ 3 (initChannel, [])
      = (⟨13, 1, 0, 0x20, 4⟩, [13, 1, 0, 0x20, 0x81])
    ∧ (2 : Nat) ≤ 3 :=
  ⟨(C3_hold_compression ⟨13, 1, 0, 0x20, false, 0x20, false⟩ initChannel []
      (by decide) (by decide) 3 (by decide) (by decide)).1,
   by decide⟩

/-- C5 (amended): once the order loop begins the order equal to the
declared restart position, the restart offset is captured as the
output length at that moment, before any of that order's rows run, and
no later order overwrites it; orders past the restart position leave
the field untouched.  (The cursor must actually reach the restart
order: a position jump may skip it, see the counterexample.) -/
theorem C5_restart_capture (cfg : ModConfig) (K : Nat) (hK : cfg.restartPos = K)
    (hlt : K < cfg.numOrders) :
    (∀ (fuel : Nat) (s : SeqState),
      (orderLoop cfg (fuel + 1) K s).restartOut = s.music.length)
    ∧ (∀ (fuel ord : Nat) (s : SeqState), K < ord →
      (orderLoop cfg fuel ord s).restartOut = s.restartOut) := by
  constructor
  · intro fuel s
    rw [orderLoop, if_pos hlt]
    have h1 : cfg.restartPos < (orderStep cfg K s).1 + 1 := by
      have := orderStep_ord_ge cfg K s
      omega
    rw [orderLoop_restart_frozen cfg fuel _ _ h1]
    exact orderStep_restart_hit cfg K s hK
  · intro fuel ord s h
    exact orderLoop_restart_frozen cfg fuel ord s (by omega)

/-- Witness for C5 on a 2-order input with restart position 1: the
loop entered at order 1 captures the current stream length 3. -/
theorem C5_restart_capture_witness :
    ({ numChannels := 1, numOrders := 2, restartPos := 1, orderList := fun _ => 0,
       file := fun _ => 0 } : ModConfig).restartPos = 1
    ∧ (orderLoop
        { numChannels := 1, numOrders := 2, restartPos := 1, orderList := fun _ => 0,
          file := fun _ => 0 } 1 1 ⟨0, 0, [initChannel], [1, 2, 3], 7⟩).restartOut = 3 :=
  ⟨rfl,
   (C5_restart_capture
      { numChannels := 1, numOrders := 2, restartPos := 1, orderList := fun _ => 0,
        file := fun _ => 0 } 1 rfl (by decide)).1 0 ⟨0, 0, [initChannel], [1, 2, 3], 7⟩⟩

set_option maxRecDepth 8000 in
/-- Counterexample to C5 as stated: in `cfgJumpSkip` the restart
position 2 is below the declared order count 3 ("played" in the
claim's sense), but the position jump in order 0 moves the cursor past
order 2, so the restart offset is never captured: it stays 0 while the
stream length accumulated by the orders before order 2 is 4. -/
theorem C5_restart_capture_counterexample :
    cfgJumpSkip.restartPos = 2
    ∧ cfgJumpSkip.restartPos < cfgJumpSkip.numOrders
    ∧ (convert cfgJumpSkip).music.length = 4
    ∧ (convert cfgJumpSkip).restartOut = 0
    ∧ (convert cfgJumpSkip).restartOut ≠ (convert cfgJumpSkip).music.length := by
  decide

/-- C6 (amended): a sample slot with declared length below 2 words
writes no chunk and occupies no space in the destination sequence, and
the source stream advances by the computed destination sample size —
which equals the slot's own source data size (2·length bytes) except
in the degenerate case length = 1 with a declared loop of length > 1
starting at 0, where more bytes than the slot's own data are
consumed. -/
theorem C6_sample_skip (m : MODSampleHeader) (h : m.length < 2)
    (acc : Nat × List Nat × List Nat) :
    (samplePassStep acc m).2.2 = acc.2.2
    ∧ (samplePassStep acc m).1 = acc.1 + kmSampleSize m
    ∧ kmSampleSize m
        = (if m.length = 1 ∧ 1 < m.loopLength ∧ m.loopStart = 0 then m.loopLength * 2
           else 2 * m.length) := by
  refine ⟨?_, ?_, ?_⟩
  · unfold samplePassStep
    rw [if_pos h]
  · unfold samplePassStep
    rw [if_pos h]
  · unfold kmSampleSize
    split <;> split <;> omega

/-- Witness for C6 at a length-1 slot without a degenerate loop: no
chunk is written and exactly 2 bytes are consumed. -/
theorem C6_sample_skip_witness :
    (⟨1, 3, 1⟩ : MODSampleHeader).length < 2
    ∧ (samplePassStep (10, [0], [5]) ⟨1, 3, 1⟩).2.2 = [5]
    ∧ (samplePassStep (10, [0], [5]) ⟨1, 3, 1⟩).1 = 10 + kmSampleSize ⟨1, 3, 1⟩
    ∧ kmSampleSize ⟨1, 3, 1⟩ = 2 :=
  ⟨by decide,
   (C6_sample_skip ⟨1, 3, 1⟩ (by decide) (10, [0], [5])).1,
   (C6_sample_skip ⟨1, 3, 1⟩ (by decide) (10, [0], [5])).2.1,
   by decide⟩

/-- Counterexample to C6 as stated: a skipped slot of declared length
1 word with loop start 0 and loop length 2 consumes 4 source bytes
instead of its own 2-byte data block, so the following sample is read
2 bytes past its correct source offset (read offsets [0, 4] instead of
[0, 2]). -/
theorem C6_sample_skip_counterexample :
    (⟨1, 0, 2⟩ : MODSampleHeader).length < 2
    ∧ (samplePass [⟨1, 0, 2⟩, ⟨3, 0, 0⟩] 0).2.1 = [0, 4]
    ∧ 2 * (⟨1, 0, 2⟩ : MODSampleHeader).length = 2
    ∧ (4 : Nat) ≠ 2 := by
  decide

set_option maxRecDepth 4000 in
/-- C7: the effect translator is a pure function of the 4-bit command
nibble and the 8-bit parameter (the command and parameter of a
translated cell do not depend on the period/instrument bytes);
arpeggio with zero parameter keeps the "no effect" sentinel 0x14
rather than its translated code 0x0B (nonzero parameter takes 0x0B);
the extended command 0xE maps the six recognised high-nibble
sub-commands to six distinct destination codes with the parameter
masked to its low nibble and degrades every other sub-command to "no
effect, zero parameter"; and the untabled top-level command degrades
likewise. -/
theorem C7_effect_translation :
    (∀ b0 b1 b0' b1' b2 b3 : Nat,
      (translateCell b0 b1 b2 b3).command = (translateCell b0' b1' b2 b3).command
      ∧ (translateCell b0 b1 b2 b3).param = (translateCell b0' b1' b2 b3).param)
    ∧ ((translateEffect 0 0).command = 0x14 ∧ (translateEffect 0 0).param = 0
        ∧ (0x14 : Nat) ≠ 0x0B)
    ∧ (∀ p : Nat, p ≠ 0 → (translateEffect 0 p).command = 0x0B)
    ∧ (∀ p : Nat, p < 256 → translateEffect 0x0E p = extendedClaimSpec p)
    ∧ ([0x03, 0x04, 0x0F, 0x01, 0x02, 0x11] : List Nat).Nodup
    ∧ (∀ c p : Nat, c < 16 →
        c ∉ ([0x00, 0x01, 0x02, 0x03, 0x04, 0x05, 0x06, 0x07, 0x09, 0x0A, 0x0B, 0x0C,
              0x0D, 0x0E, 0x0F] : List Nat) →
        translateEffect c p = ⟨0x14, 0, false, false⟩) := by
  refine ⟨fun _ _ _ _ _ _ => ⟨rfl, rfl⟩, ⟨rfl, rfl, by decide⟩, ?_, by decide, by decide, ?_⟩
  · intro p hp
    show (if p ≠ 0 then (⟨0x0B, p, false, false⟩ : EffectResult)
          else ⟨0x14, p, false, false⟩).command = 0x0B
    rw [if_pos hp]
  · intro c p hc hmem
    interval_cases c <;> simp_all
    rfl

/-- Witness for C7: the extended sub-command 0xA5 (fine volume down)
translates to code 0x01 with the masked parameter 5, and a nonzero
arpeggio parameter takes the translated code 0x0B. -/
theorem C7_effect_translation_witness :
    (0xA5 : Nat) < 256
    ∧ translateEffect 0x0E 0xA5 = extendedClaimSpec 0xA5
    ∧ (translateEffect 0 0x37).command = 0x0B :=
  ⟨by decide, C7_effect_translation.2.2.2.1 0xA5 (by decide),
   C7_effect_translation.2.2.1 0x37 (by decide)⟩

/-- C8: a pattern-break cell zeroes its parameter regardless of the
cell's parameter byte (the BCD row target is never honoured), raises
the break signal while keeping the "no effect" command, the resume row
left behind by any processed row is 0 (so the next order's rows begin
at row 0), and the break signal terminates the row loop after the
current row. -/
theorem C8_pattern_break :
    (∀ b0 b1 b2 b3 : Nat, b2 &&& 0x0F = 0x0D →
      (translateCell b0 b1 b2 b3).param = 0
      ∧ (translateCell b0 b1 b2 b3).brk = true
      ∧ (translateCell b0 b1 b2 b3).command = 0x14)
    ∧ (∀ (cfg : ModConfig) (ord : Nat) (s : SeqState),
      (processRowChannels cfg ord { s with startRow := 0 }).2.1.startRow = 0)
    ∧ (∀ (cfg : ModConfig) (fuel ord row : Nat) (s : SeqState), row < 64 →
      (processRowChannels cfg ord { s with startRow := 0 }).2.2 = true →
      (rowLoop cfg (fuel + 1) ord row s).2
        = (processRowChannels cfg ord { s with startRow := 0 }).2.1) := by
  refine ⟨?_, fun cfg ord s => processRow0_startRow cfg ord s,
    fun cfg fuel ord row s hrow hbrk => by rw [rowLoop_stop cfg fuel ord row s hrow hbrk]⟩
  intro b0 b1 b2 b3 h
  refine ⟨?_, ?_, ?_⟩
  · show (translateEffect (b2 &&& 0x0F) b3).param = 0
    rw [h]
    rfl
  · show (translateEffect (b2 &&& 0x0F) b3).brk = true
    rw [h]
    rfl
  · show (translateEffect (b2 &&& 0x0F) b3).command = 0x14
    rw [h]
    rfl

/-- Witness for C8 on a concrete break cell with parameter 0x25: the
parameter is zeroed and the break flag raised. -/
theorem C8_pattern_break_witness :
    ((0x2D : Nat) &&& 0x0F = 0x0D)
    ∧ (translateCell 0 0 0x2D 0x25).param = 0
    ∧ (translateCell 0 0 0x2D 0x25).brk = true :=
  ⟨by decide, (C8_pattern_break.1 0 0 0x2D 0x25 (by decide)).1,
   (C8_pattern_break.1 0 0 0x2D 0x25 (by decide)).2.1⟩

/-- C9: the output stream length never decreases — across one emission
step, one channel step, the row loop and the order loop — and for a
validated input (order count at most 128, channel count at most 4) the
destination music-size field equals the final stream length. -/
theorem C9_stream_monotone :
    (∀ (cs : ChannelState) (music : List Nat) (t : Cell),
      music.length ≤ (emitCell cs music t).2.length)
    ∧ (∀ (cfg : ModConfig) (acc : Nat × SeqState × Bool) (chn : Nat),
      acc.2.1.music.length ≤ (chanStep cfg acc chn).2.1.music.length)
    ∧ (∀ (cfg : ModConfig) (fuel ord row : Nat) (s : SeqState),
      s.music.length ≤ (rowLoop cfg fuel ord row s).2.music.length)
    ∧ (∀ (cfg : ModConfig) (fuel ord : Nat) (s : SeqState),
      s.music.length ≤ (orderLoop cfg fuel ord s).music.length)
    ∧ (∀ cfg : ModConfig, cfg.numOrders ≤ 128 → cfg.numChannels ≤ 4 →
      musicSizeField cfg = (convert cfg).music.length) := by
  refine ⟨emitCell_len_ge, chanStep_music_ge,
    fun cfg fuel ord row s => rowLoop_music_ge cfg fuel ord row s _ (Nat.le_refl _),
    fun cfg fuel ord s => orderLoop_music_ge cfg fuel ord s _ (Nat.le_refl _), ?_⟩
  intro cfg ho hc
  have h1 := convert_music_le cfg
  have h2 : 4 * cfg.numChannels * 64 * cfg.numOrders ≤ 4 * 4 * 64 * 128 := by
    have h3 : cfg.numChannels * cfg.numOrders ≤ 4 * 128 :=
      Nat.mul_le_mul hc ho
    nlinarith
  unfold musicSizeField
  exact Nat.mod_eq_of_lt (by omega)

/-- Witness for C9 on the concrete input `cfgSameCommand`. -/
theorem C9_stream_monotone_witness :
    cfgSameCommand.numOrders ≤ 128
    ∧ cfgSameCommand.numChannels ≤ 4
    ∧ musicSizeField cfgSameCommand = (convert cfgSameCommand).music.length :=
  ⟨by decide, by decide,
   C9_stream_monotone.2.2.2.2 cfgSameCommand (by decide) (by decide)⟩

/-- C10: a position jump moves the order cursor only forward (a target
at or below the current order leaves it unchanged), the cursor never
decreases across a row loop, every outer iteration strictly increases
it, and the order loop is insensitive to any fuel of at least the
declared order count — the conversion performs finitely many steps and
terminates. -/
theorem C10_termination :
    (∀ target ord : Nat, ord ≤ jumpOrd target ord
      ∧ (target ≤ ord → jumpOrd target ord = ord))
    ∧ (∀ (cfg : ModConfig) (fuel ord row : Nat) (s : SeqState),
      ord ≤ (rowLoop cfg fuel ord row s).1)
    ∧ (∀ (cfg : ModConfig) (ord : Nat) (s : SeqState), ord < (orderStep cfg ord s).1 + 1)
    ∧ (∀ (cfg : ModConfig) (fuel ord : Nat) (s : SeqState), cfg.numOrders - ord ≤ fuel →
      orderLoop cfg fuel ord s = orderLoop cfg (cfg.numOrders - ord) ord s)
    ∧ (∀ (cfg : ModConfig) (fuel : Nat) (s : SeqState), cfg.numOrders ≤ fuel →
      orderLoop cfg fuel 0 s = orderLoop cfg cfg.numOrders 0 s) := by
  refine ⟨fun target ord => ⟨jumpOrd_ge target ord, jumpOrd_of_le target ord⟩,
    fun cfg fuel ord row s => rowLoop_ord_ge cfg fuel ord row s,
    fun cfg ord s => Nat.lt_succ_of_le (orderStep_ord_ge cfg ord s),
    fun cfg fuel ord s h => orderLoop_fuel cfg (cfg.numOrders - ord) fuel ord s rfl h, ?_⟩
  intro cfg fuel s h
  have h1 := orderLoop_fuel cfg (cfg.numOrders - 0) fuel 0 s rfl (by omega)
  simpa using h1

/-- Witness for C10: fuel 7 exceeds the declared order count 3 of
`cfgJumpSkip`, and the order loop result is fuel-insensitive there. -/
theorem C10_termination_witness :
    cfgJumpSkip.numOrders ≤ 7
    ∧ orderLoop cfgJumpSkip 7 0 (initSeq cfgJumpSkip)
        = orderLoop cfgJumpSkip cfgJumpSkip.numOrders 0 (initSeq cfgJumpSkip) :=
  ⟨by decide, C10_termination.2.2.2.2 cfgJumpSkip 7 (initSeq cfgJumpSkip) (by decide)⟩

end Mod2Mus
